import Mathlib

/-!
Shallow embedding of the fged linear-algebra kernel
(src/vector.rs and src/matrix.rs).

Scalars (Rust `f64`) are modelled as exact rationals `ℚ`; the algebraic
claims are settled in this idealized exact-arithmetic model, where `q / 0 = 0`
is the usual total division of a Lean field (the source guards every division
that matters behind a zero test on the divisor).  IEEE-754 special-value
behaviour (NaN, signed infinities) is modelled separately by the `FP` carrier
type further below, which the NaN-specific developments use.

Rust `panic!` (and the implicit panic of out-of-range array indexing) is
modelled by `Option`: `none` is the fatal, non-recoverable outcome.
-/

namespace Fged

/-- `Vector3D` from src/vector.rs: three `f64` fields x, y, z. -/
@[ext]
structure Vector3D where
  x : ℚ
  y : ℚ
  z : ℚ
deriving DecidableEq

namespace Vector3D

/-- `Vector3D::new`. -/
def new (x y z : ℚ) : Vector3D := ⟨x, y, z⟩

/-- `Vector3D::cross`. -/
def cross (a b : Vector3D) : Vector3D :=
  ⟨a.y * b.z - a.z * b.y,
   a.z * b.x - a.x * b.z,
   a.x * b.y - a.y * b.x⟩

/-- `Vector3D::dot`. -/
def dot (a b : Vector3D) : ℚ :=
  a.x * b.x + a.y * b.y + a.z * b.z

/-- `impl Add for Vector3D`. -/
def add (a b : Vector3D) : Vector3D := ⟨a.x + b.x, a.y + b.y, a.z + b.z⟩

/-- `impl Sub for Vector3D`. -/
def sub (a b : Vector3D) : Vector3D := ⟨a.x - b.x, a.y - b.y, a.z - b.z⟩

/-- `impl Mul<f64> for Vector3D` (vector times scalar); `impl Mul<Vector3D>
for f64` delegates to this with the operands swapped. -/
def smul (a : Vector3D) (s : ℚ) : Vector3D := ⟨a.x * s, a.y * s, a.z * s⟩

/-- `impl Div<f64> for Vector3D`. -/
def divs (a : Vector3D) (s : ℚ) : Vector3D := ⟨a.x / s, a.y / s, a.z / s⟩

/-- `impl Neg for Vector3D`. -/
def neg (a : Vector3D) : Vector3D := ⟨-a.x, -a.y, -a.z⟩

/-- `Vector3D::project`: `*rhs * (self.dot(&rhs) / rhs.dot(&rhs))`. -/
def project (v a : Vector3D) : Vector3D := a.smul (v.dot a / a.dot a)

/-- `Vector3D::reject`: `*self - self.project(rhs)`. -/
def reject (v a : Vector3D) : Vector3D := v.sub (v.project a)

/-- `impl Index<usize> for Vector3D`; the `panic!` arm for an index outside
0..2 is modelled as `none`. -/
def nthOpt : Vector3D → Nat → Option ℚ
  | v, 0 => some v.x
  | v, 1 => some v.y
  | v, 2 => some v.z
  | _, _ => none

/-- Component selector used to phrase entry-level statements (component i of
a vector, i.e. `v[i]` with an in-range index). -/
def comp (v : Vector3D) : Fin 3 → ℚ
  | 0 => v.x
  | 1 => v.y
  | 2 => v.z

end Vector3D

/-- `Matrix3D` from src/matrix.rs: an array of three `Vector3D` rows. -/
@[ext]
structure Matrix3D where
  n0 : Vector3D
  n1 : Vector3D
  n2 : Vector3D
deriving DecidableEq

namespace Matrix3D

/-- `Matrix3D::new` (row-major: first three scalars fill row 0, etc.). -/
def new (n00 n01 n02 n10 n11 n12 n20 n21 n22 : ℚ) : Matrix3D :=
  ⟨⟨n00, n01, n02⟩, ⟨n10, n11, n12⟩, ⟨n20, n21, n22⟩⟩

/-- `Matrix3D::from_vector`. -/
def fromVector (a b c : Vector3D) : Matrix3D := ⟨a, b, c⟩

/-- `Matrix3D::identity`. -/
def identity : Matrix3D :=
  new 1 0 0 0 1 0 0 0 1

/-- `Matrix3D::determinant`: the direct six-term cofactor expansion. -/
def determinant (m : Matrix3D) : ℚ :=
  m.n0.x * m.n1.y * m.n2.z +
  m.n0.y * m.n1.z * m.n2.x +
  m.n0.z * m.n1.x * m.n2.y -
  m.n0.x * m.n1.z * m.n2.y -
  m.n0.y * m.n1.x * m.n2.z -
  m.n0.z * m.n1.y * m.n2.x

/-- `Matrix3D::inverse`. -/
def inverse (m : Matrix3D) : Option Matrix3D :=
  let a := m.n0
  let b := m.n1
  let c := m.n2
  let r0 := b.cross c
  let r1 := c.cross a
  let r2 := a.cross b
  let product := r2.dot c
  if product = 0 then
    none
  else
    let inv_det := 1 / product
    some (new (r0.x * inv_det) (r1.x * inv_det) (r2.x * inv_det)
      (r0.y * inv_det) (r1.y * inv_det) (r2.y * inv_det)
      (r0.z * inv_det) (r1.z * inv_det) (r2.z * inv_det))

/-- `impl Mul<Matrix3D> for Matrix3D`. -/
def mul (a b : Matrix3D) : Matrix3D :=
  new
    (a.n0.x * b.n0.x + a.n0.y * b.n1.x + a.n0.z * b.n2.x)
    (a.n0.x * b.n0.y + a.n0.y * b.n1.y + a.n0.z * b.n2.y)
    (a.n0.x * b.n0.z + a.n0.y * b.n1.z + a.n0.z * b.n2.z)
    (a.n1.x * b.n0.x + a.n1.y * b.n1.x + a.n1.z * b.n2.x)
    (a.n1.x * b.n0.y + a.n1.y * b.n1.y + a.n1.z * b.n2.y)
    (a.n1.x * b.n0.z + a.n1.y * b.n1.z + a.n1.z * b.n2.z)
    (a.n2.x * b.n0.x + a.n2.y * b.n1.x + a.n2.z * b.n2.x)
    (a.n2.x * b.n0.y + a.n2.y * b.n1.y + a.n2.z * b.n2.y)
    (a.n2.x * b.n0.z + a.n2.y * b.n1.z + a.n2.z * b.n2.z)

/-- `impl Index<usize> for Matrix3D` (`&self.n[index]`); the out-of-range
panic of Rust array indexing is modelled as `none`. -/
def rowOpt : Matrix3D → Nat → Option Vector3D
  | m, 0 => some m.n0
  | m, 1 => some m.n1
  | m, 2 => some m.n2
  | _, _ => none

/-- Row selector with an in-range index, for entry-level statements. -/
def row (m : Matrix3D) : Fin 3 → Vector3D
  | 0 => m.n0
  | 1 => m.n1
  | 2 => m.n2

/-- Entry `m[i][j]` (row i, column j), in-range indices. -/
def entry (m : Matrix3D) (i j : Fin 3) : ℚ := (m.row i).comp j

/-- The scalar triple product `(a × b) · c` of the rows, exactly the
`product = r2.dot(&c)` scalar computed inside `inverse`. -/
def tripleProduct (m : Matrix3D) : ℚ := (m.n0.cross m.n1).dot m.n2

/-- The `r`-vectors of `inverse`: `r0 = b × c`, `r1 = c × a`, `r2 = a × b`,
which become the columns of the inverse. -/
def rvec (m : Matrix3D) : Fin 3 → Vector3D
  | 0 => m.n1.cross m.n2
  | 1 => m.n2.cross m.n0
  | 2 => m.n0.cross m.n1

end Matrix3D

/-- Concrete invertible 3×3 matrix (the one used by the repository's own
`matrix_inversion` test). -/
def m3c : Matrix3D := Matrix3D.new 1 2 3 5 5 6 7 8 9


/-- `Vector4D` from src/vector.rs: four `f64` fields x, y, z, w. -/
@[ext]
structure Vector4D where
  x : ℚ
  y : ℚ
  z : ℚ
  w : ℚ
deriving DecidableEq

namespace Vector4D

/-- `Vector4D::new`. -/
def new (x y z w : ℚ) : Vector4D := ⟨x, y, z, w⟩

end Vector4D

/-- `Matrix4D` from src/matrix.rs: an array of four `Vector4D` rows. -/
@[ext]
structure Matrix4D where
  n0 : Vector4D
  n1 : Vector4D
  n2 : Vector4D
  n3 : Vector4D
deriving DecidableEq

namespace Matrix4D

/-- `Matrix4D::new` (row-major). -/
def new (n00 n01 n02 n03 n10 n11 n12 n13 n20 n21 n22 n23 n30 n31 n32 n33 : ℚ) :
    Matrix4D :=
  ⟨⟨n00, n01, n02, n03⟩, ⟨n10, n11, n12, n13⟩,
   ⟨n20, n21, n22, n23⟩, ⟨n30, n31, n32, n33⟩⟩

/-- `Matrix4D::from_vector`. -/
def fromVector (a b c d : Vector4D) : Matrix4D := ⟨a, b, c, d⟩

/-- `Matrix4D::identity`. -/
def identity : Matrix4D :=
  new 1 0 0 0 0 1 0 0 0 0 1 0 0 0 0 1

/-- `Matrix4D::determinant`: the direct 24-term cofactor expansion, term for
term as in the source. -/
def determinant (m : Matrix4D) : ℚ :=
  m.n0.x * m.n1.y * m.n2.z * m.n3.w +
  m.n0.x * m.n1.z * m.n2.w * m.n3.y +
  m.n0.x * m.n1.w * m.n2.y * m.n3.z -
  m.n0.x * m.n1.w * m.n2.z * m.n3.y -
  m.n0.x * m.n1.z * m.n2.y * m.n3.w -
  m.n0.x * m.n1.y * m.n2.w * m.n3.z -
  m.n0.y * m.n1.x * m.n2.z * m.n3.w -
  m.n0.z * m.n1.x * m.n2.w * m.n3.y -
  m.n0.w * m.n1.x * m.n2.y * m.n3.z +
  m.n0.w * m.n1.x * m.n2.z * m.n3.y +
  m.n0.z * m.n1.x * m.n2.y * m.n3.w +
  m.n0.y * m.n1.x * m.n2.w * m.n3.z +
  m.n0.y * m.n1.z * m.n2.x * m.n3.w +
  m.n0.z * m.n1.w * m.n2.x * m.n3.y +
  m.n0.w * m.n1.y * m.n2.x * m.n3.z -
  m.n0.w * m.n1.z * m.n2.x * m.n3.y -
  m.n0.z * m.n1.y * m.n2.x * m.n3.w -
  m.n0.y * m.n1.w * m.n2.x * m.n3.z -
  m.n0.y * m.n1.z * m.n2.w * m.n3.x -
  m.n0.z * m.n1.w * m.n2.y * m.n3.x -
  m.n0.w * m.n1.y * m.n2.z * m.n3.x +
  m.n0.w * m.n1.z * m.n2.y * m.n3.x +
  m.n0.z * m.n1.y * m.n2.w * m.n3.x +
  m.n0.y * m.n1.w * m.n2.z * m.n3.x

/-- Column block `a` of `Matrix4D::inverse`:
`Vector3D::new(self[0][0], self[1][0], self[2][0])`. -/
def colA (m : Matrix4D) : Vector3D := ⟨m.n0.x, m.n1.x, m.n2.x⟩

/-- Column block `b`: first three rows of column 1. -/
def colB (m : Matrix4D) : Vector3D := ⟨m.n0.y, m.n1.y, m.n2.y⟩

/-- Column block `c`: first three rows of column 2. -/
def colC (m : Matrix4D) : Vector3D := ⟨m.n0.z, m.n1.z, m.n2.z⟩

/-- Column block `d`: first three rows of column 3. -/
def colD (m : Matrix4D) : Vector3D := ⟨m.n0.w, m.n1.w, m.n2.w⟩

/-- The determinant-equivalent scalar of `Matrix4D::inverse`:
`s·v + t·u` with `s = a×b`, `t = c×d`, `u = y·a − x·b`, `v = w·c − z·d`. -/
def invScalar (m : Matrix4D) : ℚ :=
  ((m.colA.cross m.colB).dot
      ((m.colC.smul m.n3.w).sub (m.colD.smul m.n3.z))) +
  ((m.colC.cross m.colD).dot
      ((m.colA.smul m.n3.y).sub (m.colB.smul m.n3.x)))

/-- The matrix assembled in the success branch of `Matrix4D::inverse`, with
the reciprocal scaling factor `inv_det` abstracted as a parameter. -/
def assembleInverse (m : Matrix4D) (inv_det : ℚ) : Matrix4D :=
  let a := m.colA
  let b := m.colB
  let c := m.colC
  let d := m.colD
  let x := m.n3.x
  let y := m.n3.y
  let z := m.n3.z
  let w := m.n3.w
  let s := (a.cross b).smul inv_det
  let t := (c.cross d).smul inv_det
  let u := ((a.smul y).sub (b.smul x)).smul inv_det
  let v := ((c.smul w).sub (d.smul z)).smul inv_det
  let r0 := (b.cross v).add (t.smul y)
  let r1 := (v.cross a).sub (t.smul x)
  let r2 := (d.cross u).add (s.smul w)
  let r3 := (u.cross c).sub (s.smul z)
  new r0.x r0.y r0.z (-(b.dot t))
    r1.x r1.y r1.z (a.dot t)
    r2.x r2.y r2.z (-(d.dot s))
    r3.x r3.y r3.z (c.dot s)

/-- `Matrix4D::inverse`. -/
def inverse (m : Matrix4D) : Option Matrix4D :=
  let a := m.colA
  let b := m.colB
  let c := m.colC
  let d := m.colD
  let x := m.n3.x
  let y := m.n3.y
  let z := m.n3.z
  let w := m.n3.w
  let s := a.cross b
  let t := c.cross d
  let u := (a.smul y).sub (b.smul x)
  let v := (c.smul w).sub (d.smul z)
  let product := (s.dot v) + (t.dot u)
  if product = 0 then
    none
  else
    some (assembleInverse m (1 / ((s.dot v) + (t.dot u))))

/-- `impl Mul<Matrix4D> for Matrix4D`. -/
def mul (a b : Matrix4D) : Matrix4D :=
  new
    (a.n0.x * b.n0.x + a.n0.y * b.n1.x + a.n0.z * b.n2.x + a.n0.w * b.n3.x)
    (a.n0.x * b.n0.y + a.n0.y * b.n1.y + a.n0.z * b.n2.y + a.n0.w * b.n3.y)
    (a.n0.x * b.n0.z + a.n0.y * b.n1.z + a.n0.z * b.n2.z + a.n0.w * b.n3.z)
    (a.n0.x * b.n0.w + a.n0.y * b.n1.w + a.n0.z * b.n2.w + a.n0.w * b.n3.w)
    (a.n1.x * b.n0.x + a.n1.y * b.n1.x + a.n1.z * b.n2.x + a.n1.w * b.n3.x)
    (a.n1.x * b.n0.y + a.n1.y * b.n1.y + a.n1.z * b.n2.y + a.n1.w * b.n3.y)
    (a.n1.x * b.n0.z + a.n1.y * b.n1.z + a.n1.z * b.n2.z + a.n1.w * b.n3.z)
    (a.n1.x * b.n0.w + a.n1.y * b.n1.w + a.n1.z * b.n2.w + a.n1.w * b.n3.w)
    (a.n2.x * b.n0.x + a.n2.y * b.n1.x + a.n2.z * b.n2.x + a.n2.w * b.n3.x)
    (a.n2.x * b.n0.y + a.n2.y * b.n1.y + a.n2.z * b.n2.y + a.n2.w * b.n3.y)
    (a.n2.x * b.n0.z + a.n2.y * b.n1.z + a.n2.z * b.n2.z + a.n2.w * b.n3.z)
    (a.n2.x * b.n0.w + a.n2.y * b.n1.w + a.n2.z * b.n2.w + a.n2.w * b.n3.w)
    (a.n3.x * b.n0.x + a.n3.y * b.n1.x + a.n3.z * b.n2.x + a.n3.w * b.n3.x)
    (a.n3.x * b.n0.y + a.n3.y * b.n1.y + a.n3.z * b.n2.y + a.n3.w * b.n3.y)
    (a.n3.x * b.n0.z + a.n3.y * b.n1.z + a.n3.z * b.n2.z + a.n3.w * b.n3.z)
    (a.n3.x * b.n0.w + a.n3.y * b.n1.w + a.n3.z * b.n2.w + a.n3.w * b.n3.w)

/-- Row selector with an in-range index. -/
def row (m : Matrix4D) : Fin 4 → Vector4D
  | 0 => m.n0
  | 1 => m.n1
  | 2 => m.n2
  | 3 => m.n3

end Matrix4D

/-- Concrete invertible 4×4 matrix (the one used by the repository's own
`matrix_inversion` test for Matrix4D). -/
def m4c : Matrix4D := Matrix4D.new 1 1 1 0 0 3 1 2 1 0 2 1 2 3 1 0

/-- Exact inverse of `m3c` as produced by `Matrix3D::inverse`. -/
def m3cInv : Matrix3D :=
  Matrix3D.new (-1/2) 1 (-1/2) (-1/2) (-2) (3/2) (5/6) 1 (-5/6)

/-- Exact inverse of `m4c` as produced by `Matrix4D::inverse`. -/
def m4cInv : Matrix4D :=
  Matrix4D.new (-3) (-1/2) 1 (3/2) 1 (1/4) (-1/2) (-1/4)
    3 (1/4) (-1/2) (-5/4) (-3) 0 1 1

/-- `Matrix3DIterator` from src/matrix.rs: a copy of the matrix rows plus
the running element index. -/
structure Matrix3DIterator where
  n0 : Vector3D
  n1 : Vector3D
  n2 : Vector3D
  index : Nat

/-- `impl IntoIterator for Matrix3D`: the iterator starts at index 0, so
every call restarts the traversal from the first element. -/
def Matrix3D.intoIter (m : Matrix3D) : Matrix3DIterator :=
  ⟨m.n0, m.n1, m.n2, 0⟩

/-- `Matrix3DIterator::next`: `i = index / 3`, `j = index % 3`; while both
are in range it yields `n[j][i]` (row `j`, component `i`) and advances.  The
`&mut self` state is modelled by returning the advanced iterator with the
item.  The two catch-all arms are the `j = 2` / `i = 2` cases: the guard has
already established `j < 3` and `i < 3`, so the array accesses cannot
panic. -/
def Matrix3DIterator.next (it : Matrix3DIterator) :
    Option (ℚ × Matrix3DIterator) :=
  let i := it.index / 3
  let j := it.index % 3
  if i < 3 ∧ j < 3 then
    let rowj := match j with
      | 0 => it.n0
      | 1 => it.n1
      | _ => it.n2
    let val := match i with
      | 0 => rowj.x
      | 1 => rowj.y
      | _ => rowj.z
    some (val, ⟨it.n0, it.n1, it.n2, it.index + 1⟩)
  else
    none

/-- Driver that repeatedly calls `next` and collects the yielded items; the
fuel argument bounds the number of steps taken (harness machinery, not
source code — the source iterates lazily). -/
def collectIter : Nat → Matrix3DIterator → List ℚ
  | 0, _ => []
  | fuel + 1, it =>
    match it.next with
    | none => []
    | some (q, it2) => q :: collectIter fuel it2

/-- Square root on ℚ used to model `f64::sqrt` at the arguments the
theorems below evaluate it at; it is exact at 0 and on squares.
`f64::sqrt` of a positive non-square has no exact rational value and no
theorem below depends on such an argument. -/
def ratSqrt (q : ℚ) : ℚ := (Nat.sqrt q.num.toNat : ℚ) / (Nat.sqrt q.den : ℚ)

/-- IEEE-754-style scalar carrier for the special-value claims: a finite
value (kept exact; rounding is not modelled), a quiet NaN, or a signed
infinity.  The sign of zero is not modelled (no claim depends on it). -/
inductive FP where
  | num (q : ℚ)
  | nan
  | inf
  | neginf
deriving DecidableEq

namespace FP

/-- IEEE `==` on f64 (what the derived `PartialEq` applies componentwise):
NaN compares unequal to everything, itself included. -/
def beq : FP → FP → Bool
  | num a, num b => a == b
  | inf, inf => true
  | neginf, neginf => true
  | _, _ => false

/-- IEEE addition on the carrier (exact on finite values). -/
def add : FP → FP → FP
  | nan, _ => nan
  | _, nan => nan
  | inf, neginf => nan
  | neginf, inf => nan
  | inf, _ => inf
  | _, inf => inf
  | neginf, _ => neginf
  | _, neginf => neginf
  | num a, num b => num (a + b)

/-- IEEE multiplication on the carrier (exact on finite values);
`±Inf * 0 = NaN`. -/
def mul : FP → FP → FP
  | nan, _ => nan
  | _, nan => nan
  | num a, num b => num (a * b)
  | inf, inf => inf
  | inf, neginf => neginf
  | neginf, inf => neginf
  | neginf, neginf => inf
  | num a, inf => if a = 0 then nan else if 0 < a then inf else neginf
  | inf, num a => if a = 0 then nan else if 0 < a then inf else neginf
  | num a, neginf => if a = 0 then nan else if 0 < a then neginf else inf
  | neginf, num a => if a = 0 then nan else if 0 < a then neginf else inf

/-- IEEE division on the carrier: `0.0 / 0.0 = NaN`; a nonzero finite value
divided by zero is a signed infinity (positive-zero divisor convention,
since the sign of zero is not modelled); `finite / ±Inf = 0`;
`±Inf / ±Inf = NaN`. -/
def div : FP → FP → FP
  | nan, _ => nan
  | _, nan => nan
  | inf, inf => nan
  | inf, neginf => nan
  | neginf, inf => nan
  | neginf, neginf => nan
  | inf, num b => if b < 0 then neginf else inf
  | neginf, num b => if b < 0 then inf else neginf
  | num _, inf => num 0
  | num _, neginf => num 0
  | num a, num b =>
    if b = 0 then
      if a = 0 then nan else if 0 < a then inf else neginf
    else
      num (a / b)

/-- `f64::powi` modelled as iterated multiplication. -/
def powi : FP → Nat → FP
  | _, 0 => num 1
  | v, n + 1 => v.mul (v.powi n)

/-- `f64::sqrt` on the carrier: NaN for negative arguments (and for NaN),
`ratSqrt` on nonnegative finite values. -/
def sqrt : FP → FP
  | nan => nan
  | inf => inf
  | neginf => nan
  | num q => if q < 0 then nan else num (ratSqrt q)

end FP

/-- `Vector3D` over the IEEE-style carrier, for the special-value claims. -/
structure FVector3D where
  x : FP
  y : FP
  z : FP

namespace FVector3D

/-- Derived `PartialEq` for Vector3D: componentwise IEEE `==`, conjoined. -/
def beq (a b : FVector3D) : Bool :=
  (a.x.beq b.x && a.y.beq b.y) && a.z.beq b.z

/-- Some component is NaN. -/
def hasNan (v : FVector3D) : Prop :=
  v.x = FP.nan ∨ v.y = FP.nan ∨ v.z = FP.nan

/-- `Vector3D::magnitude`: `sqrt(powi(x,2) + powi(y,2) + powi(z,2))`. -/
def magnitude (v : FVector3D) : FP :=
  (((v.x.powi 2).add (v.y.powi 2)).add (v.z.powi 2)).sqrt

/-- `impl Div<f64> for Vector3D` on the carrier. -/
def divs (v : FVector3D) (s : FP) : FVector3D :=
  ⟨v.x.div s, v.y.div s, v.z.div s⟩

/-- `Vector3D::normalize`: `*self / self.magnitude()`; a total function —
it never panics, it only produces special values. -/
def normalize (v : FVector3D) : FVector3D := v.divs v.magnitude

end FVector3D

/-- `Vector4D` over the IEEE-style carrier. -/
structure FVector4D where
  x : FP
  y : FP
  z : FP
  w : FP

/-- Derived `PartialEq` for Vector4D. -/
def FVector4D.beq (a b : FVector4D) : Bool :=
  ((a.x.beq b.x && a.y.beq b.y) && a.z.beq b.z) && a.w.beq b.w

/-- Some component is NaN. -/
def FVector4D.hasNan (v : FVector4D) : Prop :=
  v.x = FP.nan ∨ v.y = FP.nan ∨ v.z = FP.nan ∨ v.w = FP.nan

/-- `Matrix3D` over the IEEE-style carrier. -/
structure FMatrix3D where
  n0 : FVector3D
  n1 : FVector3D
  n2 : FVector3D

/-- Derived `PartialEq` for Matrix3D: rowwise, hence componentwise. -/
def FMatrix3D.beq (a b : FMatrix3D) : Bool :=
  (a.n0.beq b.n0 && a.n1.beq b.n1) && a.n2.beq b.n2

/-- Some entry is NaN. -/
def FMatrix3D.hasNan (m : FMatrix3D) : Prop :=
  m.n0.hasNan ∨ m.n1.hasNan ∨ m.n2.hasNan

/-- `Matrix4D` over the IEEE-style carrier. -/
structure FMatrix4D where
  n0 : FVector4D
  n1 : FVector4D
  n2 : FVector4D
  n3 : FVector4D

/-- Derived `PartialEq` for Matrix4D. -/
def FMatrix4D.beq (a b : FMatrix4D) : Bool :=
  ((a.n0.beq b.n0 && a.n1.beq b.n1) && a.n2.beq b.n2) && a.n3.beq b.n3

/-- Some entry is NaN. -/
def FMatrix4D.hasNan (m : FMatrix4D) : Prop :=
  m.n0.hasNan ∨ m.n1.hasNan ∨ m.n2.hasNan ∨ m.n3.hasNan

/-- A vector with a NaN first component. -/
def fvNan : FVector3D := ⟨FP.nan, FP.num 0, FP.num 0⟩

/-- A 4-component vector with a NaN first component. -/
def fv4Nan : FVector4D := ⟨FP.nan, FP.num 0, FP.num 0, FP.num 0⟩

/-- An all-finite 3-vector over the carrier. -/
def fvFin : FVector3D := ⟨FP.num 1, FP.num 2, FP.num 3⟩

/-- An all-finite 4-vector over the carrier. -/
def fv4Fin : FVector4D := ⟨FP.num 1, FP.num 2, FP.num 3, FP.num 4⟩

/-- A 3×3 matrix over the carrier containing one NaN entry. -/
def fm3Nan : FMatrix3D := ⟨fvNan, fvFin, fvFin⟩

/-- A 4×4 matrix over the carrier containing one NaN entry. -/
def fm4Nan : FMatrix4D := ⟨fv4Nan, fv4Fin, fv4Fin, fv4Fin⟩

/-- C1: `Matrix3D::inverse` returns `None` exactly when the scalar triple
product `(a × b) · c` of the rows is zero, and any returned matrix has entry
(i, j) equal to the i-th component of `r_j` (`r0 = b × c`, `r1 = c × a`,
`r2 = a × b`) times the reciprocal of that scalar. -/
theorem matrix3d_inverse_none_iff_triple_zero (M : Matrix3D) :
    (M.inverse = none ↔ M.tripleProduct = 0) ∧
    (∀ N, M.inverse = some N →
      ∀ i j : Fin 3, N.entry i j = (M.rvec j).comp i * (1 / M.tripleProduct)) := by
  unfold Matrix3D.inverse Matrix3D.tripleProduct
  by_cases h : (M.n0.cross M.n1).dot M.n2 = 0
  · refine ⟨by simp [h], ?_⟩
    intro N hN
    simp [h] at hN
  · refine ⟨by simp [h], ?_⟩
    intro N hN
    simp only [h, if_false, Option.some.injEq] at hN
    subst hN
    intro i j
    fin_cases i <;> fin_cases j <;>
      simp [Matrix3D.entry, Matrix3D.row, Matrix3D.rvec, Matrix3D.new,
        Vector3D.comp]

/-- Witness for C1 at the concrete matrix `m3c` (triple product 6 ≠ 0),
its inverse `m3cInv`, and entry position (2, 1). -/
theorem matrix3d_inverse_none_iff_triple_zero_witness :
    ¬ (m3c.inverse = none) ∧
    m3cInv.entry 2 1 = (m3c.rvec 1).comp 2 * (1 / m3c.tripleProduct) := by
  have h := matrix3d_inverse_none_iff_triple_zero m3c
  refine ⟨?_, h.2 m3cInv (by
    norm_num [m3c, m3cInv, Matrix3D.inverse, Matrix3D.new, Vector3D.cross,
      Vector3D.dot, Matrix3D.mk.injEq, Vector3D.mk.injEq]) 2 1⟩
  rw [h.1]
  norm_num [m3c, Matrix3D.tripleProduct, Matrix3D.new, Vector3D.cross,
    Vector3D.dot]

/-- C3: for every choice of rows a, b, c, the scalar triple product
`(a × b) · c` computed inside `inverse` coincides with the value of the
direct six-term cofactor expansion `determinant()`. -/
theorem triple_product_eq_determinant (a b c : Vector3D) :
    (a.cross b).dot c = (Matrix3D.fromVector a b c).determinant := by
  simp only [Vector3D.cross, Vector3D.dot, Matrix3D.fromVector,
    Matrix3D.determinant]
  ring

/-- C5: for every vector v and axis a, the projection/rejection
decomposition `v.project(a) + v.reject(a) = v` holds exactly in the model. -/
theorem project_add_reject_eq_self (v a : Vector3D) :
    (v.project a).add (v.reject a) = v := by
  ext <;>
    simp only [Vector3D.project, Vector3D.reject, Vector3D.add, Vector3D.sub,
      Vector3D.smul, Vector3D.dot] <;>
    ring

/-- C4: `Matrix4D::inverse` returns `None` exactly when the block scalar
`s·v + t·u` (with `s = a×b`, `t = c×d`, `u = y·a − x·b`, `v = w·c − z·d`
built from the column blocks and the last row) is zero; any returned matrix
is the one assembled with scaling factor `1 / (s·v + t·u)` — the reciprocal
of that same scalar, not of a separately computed 24-term determinant. -/
theorem matrix4d_inverse_none_iff_scalar_zero (M : Matrix4D) :
    (M.inverse = none ↔ M.invScalar = 0) ∧
    (∀ N, M.inverse = some N → N = M.assembleInverse (1 / M.invScalar)) := by
  have key : M.inverse =
      if M.invScalar = 0 then none
      else some (M.assembleInverse (1 / M.invScalar)) := rfl
  by_cases h : M.invScalar = 0
  · rw [key, if_pos h]
    refine ⟨⟨fun _ => h, fun _ => rfl⟩, ?_⟩
    intro N hN
    cases hN
  · rw [key, if_neg h]
    refine ⟨⟨fun hc => ?_, fun hc => absurd hc h⟩,
      fun N hN => (Option.some.inj hN).symm⟩
    cases hc

/-- Witness for C4 at the concrete matrix `m4c` (block scalar 4 ≠ 0) and
its inverse `m4cInv`. -/
theorem matrix4d_inverse_none_iff_scalar_zero_witness :
    ¬ (m4c.inverse = none) ∧
    m4cInv = m4c.assembleInverse (1 / m4c.invScalar) := by
  have h := matrix4d_inverse_none_iff_scalar_zero m4c
  refine ⟨?_, h.2 m4cInv (by
    norm_num [m4c, m4cInv, Matrix4D.inverse, Matrix4D.assembleInverse,
      Matrix4D.new, Matrix4D.colA, Matrix4D.colB, Matrix4D.colC,
      Matrix4D.colD, Vector3D.cross, Vector3D.dot, Vector3D.smul,
      Vector3D.add, Vector3D.sub, Matrix4D.mk.injEq, Vector4D.mk.injEq])⟩
  rw [h.1]
  norm_num [m4c, Matrix4D.invScalar, Matrix4D.new, Matrix4D.colA, Matrix4D.colB,
    Matrix4D.colC, Matrix4D.colD, Vector3D.cross, Vector3D.dot, Vector3D.smul,
    Vector3D.sub]

set_option maxHeartbeats 1600000 in
/-- The 4×4 matrix assembled by `inverse` with any scaling factor k such
that `k * (s·v + t·u) = 1` is a left inverse.  Division-free helper: every
entry of `assembleInverse M k` is k times a cubic adjugate-style polynomial,
and the adjugate times M is the block scalar times the identity. -/
theorem matrix4d_assemble_mul_eq_identity (M : Matrix4D) (k : ℚ)
    (hk : k * M.invScalar = 1) :
    (M.assembleInverse k).mul M = Matrix4D.identity := by
  simp only [Matrix4D.invScalar, Matrix4D.colA, Matrix4D.colB, Matrix4D.colC,
    Matrix4D.colD, Vector3D.cross, Vector3D.dot, Vector3D.smul,
    Vector3D.sub] at hk
  ext
  all_goals
    simp only [Matrix4D.assembleInverse, Matrix4D.mul, Matrix4D.new,
      Matrix4D.identity, Matrix4D.colA, Matrix4D.colB, Matrix4D.colC,
      Matrix4D.colD, Vector3D.cross, Vector3D.dot, Vector3D.smul,
      Vector3D.add, Vector3D.sub, Vector3D.neg]
  all_goals try ring
  all_goals linear_combination hk

/-- C2: whenever `inverse()` succeeds (Matrix3D or Matrix4D), the returned
matrix times the original matrix is the identity matrix — exactly so in the
exact-arithmetic model, hence within any floating-point tolerance. -/
theorem inverse_mul_self_eq_identity :
    (∀ M N : Matrix3D, M.inverse = some N → N.mul M = Matrix3D.identity) ∧
    (∀ M N : Matrix4D, M.inverse = some N → N.mul M = Matrix4D.identity) := by
  constructor
  · intro M N h
    unfold Matrix3D.inverse at h
    by_cases hp : (M.n0.cross M.n1).dot M.n2 = 0
    · simp [hp] at h
    · simp only [hp, if_false, Option.some.injEq] at h
      subst h
      simp only [Vector3D.cross, Vector3D.dot] at hp
      ext <;>
        simp only [Matrix3D.mul, Matrix3D.new, Matrix3D.identity,
          Vector3D.cross, Vector3D.dot] <;>
        field_simp <;>
        ring
  · intro M N h
    have key : M.inverse =
        if M.invScalar = 0 then none
        else some (M.assembleInverse (1 / M.invScalar)) := rfl
    rw [key] at h
    by_cases hp : M.invScalar = 0
    · rw [if_pos hp] at h; cases h
    · rw [if_neg hp] at h
      obtain rfl := (Option.some.inj h).symm
      exact matrix4d_assemble_mul_eq_identity M _ (one_div_mul_cancel hp)

/-- Witness for C2: the repository's own test matrices, with their exact
inverses, multiply back to the identity. -/
theorem inverse_mul_self_eq_identity_witness :
    m3cInv.mul m3c = Matrix3D.identity ∧ m4cInv.mul m4c = Matrix4D.identity :=
  ⟨inverse_mul_self_eq_identity.1 m3c m3cInv (by
      norm_num [m3c, m3cInv, Matrix3D.inverse, Matrix3D.new, Vector3D.cross,
        Vector3D.dot, Matrix3D.mk.injEq, Vector3D.mk.injEq]),
    inverse_mul_self_eq_identity.2 m4c m4cInv (by
      norm_num [m4c, m4cInv, Matrix4D.inverse, Matrix4D.assembleInverse,
        Matrix4D.new, Matrix4D.colA, Matrix4D.colB, Matrix4D.colC,
        Matrix4D.colD, Vector3D.cross, Vector3D.dot, Vector3D.smul,
        Vector3D.add, Vector3D.sub, Matrix4D.mk.injEq, Vector4D.mk.injEq])⟩

/-- C6: the determinant of the identity matrix is exactly 1 (3×3 and 4×4);
any matrix with an all-zero row has determinant exactly 0 and `inverse()`
returns the no-inverse result; and `Matrix3D::new(3,5,6,4,5,6,7,8,9)` has
determinant exactly 3. -/
theorem determinant_identity_zero_row_concrete :
    Matrix3D.identity.determinant = 1 ∧
    Matrix4D.identity.determinant = 1 ∧
    (∀ M : Matrix3D,
      (M.n0 = Vector3D.new 0 0 0 ∨ M.n1 = Vector3D.new 0 0 0 ∨
        M.n2 = Vector3D.new 0 0 0) →
      M.determinant = 0 ∧ M.inverse = none) ∧
    (∀ M : Matrix4D,
      (M.n0 = Vector4D.new 0 0 0 0 ∨ M.n1 = Vector4D.new 0 0 0 0 ∨
        M.n2 = Vector4D.new 0 0 0 0 ∨ M.n3 = Vector4D.new 0 0 0 0) →
      M.determinant = 0 ∧ M.inverse = none) ∧
    (Matrix3D.new 3 5 6 4 5 6 7 8 9).determinant = 3 := by
  refine ⟨?_, ?_, ?_, ?_, ?_⟩
  · norm_num [Matrix3D.identity, Matrix3D.new, Matrix3D.determinant]
  · norm_num [Matrix4D.identity, Matrix4D.new, Matrix4D.determinant]
  · intro M h
    rcases h with h | h | h <;>
      exact ⟨by simp [Matrix3D.determinant, Vector3D.new, h],
        by simp [Matrix3D.inverse, Vector3D.cross, Vector3D.dot,
          Vector3D.new, h]⟩
  · intro M h
    rcases h with h | h | h | h <;>
      exact ⟨by simp [Matrix4D.determinant, Vector4D.new, h],
        by simp [Matrix4D.inverse, Matrix4D.colA, Matrix4D.colB,
          Matrix4D.colC, Matrix4D.colD, Vector3D.cross, Vector3D.dot,
          Vector3D.smul, Vector3D.sub, Vector4D.new, h]⟩
  · norm_num [Matrix3D.new, Matrix3D.determinant]

/-- Witness for C6 at concrete matrices whose first row is all zero. -/
theorem determinant_identity_zero_row_concrete_witness :
    ((Matrix3D.new 0 0 0 1 2 3 4 5 6).determinant = 0 ∧
      (Matrix3D.new 0 0 0 1 2 3 4 5 6).inverse = none) ∧
    ((Matrix4D.new 0 0 0 0 1 2 3 4 5 6 7 8 9 10 11 12).determinant = 0 ∧
      (Matrix4D.new 0 0 0 0 1 2 3 4 5 6 7 8 9 10 11 12).inverse = none) :=
  ⟨determinant_identity_zero_row_concrete.2.2.1 _ (Or.inl rfl),
    determinant_identity_zero_row_concrete.2.2.2.1 _ (Or.inl rfl)⟩

/-- C7: iterating a Matrix3D yields exactly 9 elements and then nothing,
however much surplus fuel is supplied; the elements come in column-major
order — the k-th element is the entry at row k mod 3, column k div 3, the
transpose of the row-major `[]` convention — and `into_iter` starts every
iteration afresh at index 0. -/
theorem matrix3d_iteration_column_major (M : Matrix3D) :
    collectIter 9 M.intoIter =
      [M.n0.x, M.n1.x, M.n2.x, M.n0.y, M.n1.y, M.n2.y,
        M.n0.z, M.n1.z, M.n2.z] ∧
    (∀ m : Nat, ∀ hm : m < 9,
      (collectIter 9 M.intoIter).getD m 0 =
        M.entry ⟨m % 3, by omega⟩ ⟨m / 3, by omega⟩) ∧
    (∀ j, 9 ≤ j →
      Matrix3DIterator.next ⟨M.n0, M.n1, M.n2, j⟩ = none) ∧
    M.intoIter.index = 0 := by
  have hlist : collectIter 9 M.intoIter =
      [M.n0.x, M.n1.x, M.n2.x, M.n0.y, M.n1.y, M.n2.y,
        M.n0.z, M.n1.z, M.n2.z] := by
    simp [collectIter, Matrix3DIterator.next, Matrix3D.intoIter]
  refine ⟨hlist, ?_, ?_, rfl⟩
  · intro m hm
    rw [hlist]
    interval_cases m <;>
      simp [Matrix3D.entry, Matrix3D.row, Vector3D.comp]
  · intro j hj
    simp only [Matrix3DIterator.next]
    rw [if_neg (by omega : ¬(j / 3 < 3 ∧ j % 3 < 3))]

/-- Witness for C7: the sixth element (index 5) of iterating `m3c` is the
entry at row 5 mod 3 = 2, column 5 div 3 = 1; and the iterator state after
the nine yields produces nothing. -/
theorem matrix3d_iteration_column_major_witness :
    (collectIter 9 m3c.intoIter).getD 5 0 =
      m3c.entry ⟨5 % 3, by omega⟩ ⟨5 / 3, by omega⟩ ∧
    Matrix3DIterator.next ⟨m3c.n0, m3c.n1, m3c.n2, 9⟩ = none :=
  ⟨(matrix3d_iteration_column_major m3c).2.1 5 (by omega),
    (matrix3d_iteration_column_major m3c).2.2.1 9 (by omega)⟩

/-- C8: indexing a Vector3D at 0, 1, 2 returns x, y, z and cannot fail;
indexing at any position ≥ 3 is the `panic!` arm (modelled `none`), and
indexing a Matrix3D row position outside 0..2 likewise panics. -/
theorem index_in_range_or_panic (v : Vector3D) (M : Matrix3D) :
    v.nthOpt 0 = some v.x ∧ v.nthOpt 1 = some v.y ∧ v.nthOpt 2 = some v.z ∧
    (∀ i, 3 ≤ i → v.nthOpt i = none) ∧
    M.rowOpt 0 = some M.n0 ∧ M.rowOpt 1 = some M.n1 ∧
    M.rowOpt 2 = some M.n2 ∧
    (∀ i, 3 ≤ i → M.rowOpt i = none) := by
  refine ⟨rfl, rfl, rfl, ?_, rfl, rfl, rfl, ?_⟩
  · intro i hi
    obtain ⟨n, rfl⟩ : ∃ n, i = n + 3 := ⟨i - 3, by omega⟩
    rfl
  · intro i hi
    obtain ⟨n, rfl⟩ : ∃ n, i = n + 3 := ⟨i - 3, by omega⟩
    rfl

/-- Witness for C8 at a concrete vector, matrix and out-of-range indices. -/
theorem index_in_range_or_panic_witness :
    (Vector3D.new 1 2 3).nthOpt 5 = none ∧
    (Matrix3D.new 1 2 3 4 5 6 7 8 9).rowOpt 7 = none := by
  have h := index_in_range_or_panic (Vector3D.new 1 2 3)
    (Matrix3D.new 1 2 3 4 5 6 7 8 9)
  exact ⟨h.2.2.2.1 5 (by omega), h.2.2.2.2.2.2.2 7 (by omega)⟩

/-- C9: the derived equality of Vector3D, Matrix3D and Matrix4D is IEEE
componentwise comparison, so it is not reflexive: any value containing a
NaN component compares unequal to itself, and exact equality therefore
fails to be an equivalence relation on the full carrier. -/
theorem ieee_eq_not_reflexive_on_nan :
    (∀ v : FVector3D, v.hasNan → v.beq v = false) ∧
    (∀ m : FMatrix3D, m.hasNan → m.beq m = false) ∧
    (∀ m : FMatrix4D, m.hasNan → m.beq m = false) := by
  have hnn : FP.beq FP.nan FP.nan = false := rfl
  have hv : ∀ v : FVector3D, v.hasNan → v.beq v = false := by
    intro v h
    rcases h with h | h | h <;>
      simp [FVector3D.beq, h, hnn]
  have hv4 : ∀ v : FVector4D, v.hasNan → v.beq v = false := by
    intro v h
    rcases h with h | h | h | h <;>
      simp [FVector4D.beq, h, hnn]
  refine ⟨hv, ?_, ?_⟩
  · intro m h
    rcases h with h | h | h <;>
      simp [FMatrix3D.beq, hv _ h]
  · intro m h
    rcases h with h | h | h | h <;>
      simp [FMatrix4D.beq, hv4 _ h]

/-- Witness for C9 at concrete NaN-bearing values. -/
theorem ieee_eq_not_reflexive_on_nan_witness :
    fvNan.beq fvNan = false ∧ fm3Nan.beq fm3Nan = false ∧
    fm4Nan.beq fm4Nan = false :=
  ⟨ieee_eq_not_reflexive_on_nan.1 fvNan (Or.inl rfl),
    ieee_eq_not_reflexive_on_nan.2.1 fm3Nan (Or.inl (Or.inl rfl)),
    ieee_eq_not_reflexive_on_nan.2.2 fm4Nan (Or.inl (Or.inl rfl))⟩

/-- C10: `normalize()` on the exact zero vector: the magnitude is exactly
0, each component becomes `0.0 / 0.0 = NaN` — all three components are NaN
and none is an infinity; `normalize` is a total function and signals no
error for any input. -/
theorem normalize_zero_vector_all_nan :
    FVector3D.normalize ⟨FP.num 0, FP.num 0, FP.num 0⟩ =
      ⟨FP.nan, FP.nan, FP.nan⟩ := by
  simp only [FVector3D.normalize, FVector3D.divs, FVector3D.magnitude,
    FP.powi, FP.mul, FP.add, FP.sqrt, FP.div, ratSqrt]
  norm_num

end Fged
